import Mathlib

/-!
Verification development for `hw5/radon.py`: a Radon transform operator
(`radon`), a filtered backprojection operator (`fbp`), and the Ram-Lak ramp
filter (`rampfilter`).  The Python tensor pipeline is shallowly embedded in
two layers:

* a *shape-level* semantics of the tensor operations used by
  `radon.forward` and `fbp.forward` (shapes are 4-tuples of naturals,
  failing operations return `none`), faithful to PyTorch's shape and
  broadcast rules for `grid_sample`, `reshape`/`view`, `pad`, `fft` and
  elementwise multiplication;
* a *data-level* semantics over exact reals (`ℝ`/`ℂ`) of the angle grid,
  the backprojection sampling grid, bilinear `grid_sample`
  (align_corners=True, zeros padding), the DFT-based ramp filtering, the
  circle mask and the output normalization.
-/

namespace RadonRepo

open Real

/-! ## Padding sizes (`fbp.__init__`, radon.py lines 79-80)

`projection_size_padded = max(64, int(2 ** (2 * tensor(det_count)).float().log2().ceil()))`
with `det_count = image_size`; `pad_width = projection_size_padded - det_count`.
`Nat.clog 2` is the exact ceiling base-2 logarithm. -/

def projectionSizePadded (S : ℕ) : ℕ := max 64 (2 ^ Nat.clog 2 (2 * S))

def padWidth (S : ℕ) : ℕ := projectionSizePadded S - S

lemma two_mul_le_projectionSizePadded (S : ℕ) : 2 * S ≤ projectionSizePadded S :=
  le_trans (Nat.le_pow_clog one_lt_two _) (le_max_right _ _)

lemma le_projectionSizePadded (S : ℕ) : S ≤ projectionSizePadded S :=
  le_trans (by omega) (two_mul_le_projectionSizePadded S)

lemma sixtyfour_le_projectionSizePadded (S : ℕ) : 64 ≤ projectionSizePadded S :=
  le_max_left _ _

lemma lt_projectionSizePadded {S : ℕ} (hS : 1 ≤ S) : S < projectionSizePadded S :=
  lt_of_lt_of_le (by omega) (two_mul_le_projectionSizePadded S)

/-! ## Shape-level semantics

A tensor shape is a 4-tuple `(batch, channels, height, width)`. -/

def numel (s : ℕ × ℕ × ℕ × ℕ) : ℕ := s.1 * s.2.1 * s.2.2.1 * s.2.2.2

/-- Shape semantics of `torch.nn.functional.grid_sample(input, grid)` for a
4-D input and a 4-D grid: batch sizes must agree, the grid's last dimension
must be 2, the input's spatial dimensions must be non-empty; the output
keeps the input's batch and channel dimensions and takes the grid's two
spatial dimensions. -/
def gridSampleShape (inp grid : ℕ × ℕ × ℕ × ℕ) : Option (ℕ × ℕ × ℕ × ℕ) :=
  if inp.1 = grid.1 ∧ grid.2.2.2 = 2 ∧ 1 ≤ inp.2.2.1 ∧ 1 ≤ inp.2.2.2 then
    some (inp.1, inp.2.1, grid.2.1, grid.2.2.1)
  else none

/-- Shape semantics of `radon.forward` (radon.py lines 44-56) for a 4-D
input: `grid_sample` with the precomputed grid of shape
`(bsz, n_angles*image_size, image_size, 2)`, `reshape` to
`(bsz, 1, n_angles, h, h)` (succeeds iff the element counts agree, where
`h` is the input's height, `shape_size` in the source), `sum(3)` and
`permute(0,1,3,2)`. -/
def radonForwardShape (nA S : ℕ) (inp : ℕ × ℕ × ℕ × ℕ) : Option (ℕ × ℕ × ℕ × ℕ) :=
  (gridSampleShape inp (inp.1, nA * S, S, 2)).bind fun g =>
    if numel g = inp.1 * 1 * nA * (inp.2.2.1 * inp.2.2.1) then
      some (inp.1, 1, inp.2.2.1, nA)
    else none

/-- Shape semantics of the filtering stage of `fbp.forward`
(radon.py lines 105-110): `pad` the detector axis by `pad_width`, `fft`
along it (shape preserving), broadcast-multiply with the filter of shape
`(projection_size_padded, 1)` (legal iff the detector dimensions are equal
or one of them is 1), `ifft`, real part, then slice back to the first
`det_count` detector samples. -/
def fbpFilterShape (S : ℕ) (inp : ℕ × ℕ × ℕ × ℕ) : Option (ℕ × ℕ × ℕ × ℕ) :=
  let L := inp.2.2.1 + padWidth S
  let P := projectionSizePadded S
  if L = P ∨ L = 1 ∨ P = 1 then
    some (inp.1, inp.2.1, min (max L P) inp.2.2.1, inp.2.2.2)
  else none

/-- Shape semantics of `fbp.forward` (radon.py lines 93-122) for a 4-D
input: optional filtering stage, `grid_sample` with the precomputed grid of
shape `(bsz, n_angles*image_size, image_size, 2)`, `view` to
`(bsz, n_angles, 1, image_size, image_size)` (succeeds iff the element
counts agree), `sum(1)`, normalization, masking and scaling (all shape
preserving). -/
def fbpForwardShape (nA S : ℕ) (filtered : Bool) (inp : ℕ × ℕ × ℕ × ℕ) :
    Option (ℕ × ℕ × ℕ × ℕ) :=
  (if filtered then fbpFilterShape S inp else some inp).bind fun s2 =>
    (gridSampleShape s2 (inp.1, nA * S, S, 2)).bind fun g =>
      if numel g = inp.1 * nA * 1 * (S * S) then some (inp.1, 1, S, S)
      else none

/-- C5: the padded detector length is computed once at construction as the
smallest power of two that is at least `2 * det_count` (with `det_count =
image_size`) and at least 64, and the pad width is the padded size minus
the detector count. -/
theorem padding_is_least_pow2_ge (S : ℕ) :
    IsLeast {p : ℕ | (∃ e, p = 2 ^ e) ∧ 64 ≤ p ∧ 2 * S ≤ p}
      (projectionSizePadded S) ∧
    padWidth S = projectionSizePadded S - S := by
  refine ⟨⟨⟨?_, sixtyfour_le_projectionSizePadded S,
    two_mul_le_projectionSizePadded S⟩, ?_⟩, rfl⟩
  · rcases le_total (Nat.clog 2 (2 * S)) 6 with h | h
    · exact ⟨6, by
        have : 2 ^ Nat.clog 2 (2 * S) ≤ 2 ^ 6 := Nat.pow_le_pow_right (by norm_num) h
        simp [projectionSizePadded]
        omega⟩
    · exact ⟨Nat.clog 2 (2 * S), by
        have : (64 : ℕ) ≤ 2 ^ Nat.clog 2 (2 * S) := by
          calc (64 : ℕ) = 2 ^ 6 := by norm_num
          _ ≤ 2 ^ Nat.clog 2 (2 * S) := Nat.pow_le_pow_right (by norm_num) h
        simp [projectionSizePadded]
        omega⟩
  · rintro p ⟨⟨e, rfl⟩, h64, h2S⟩
    refine max_le h64 ?_
    have hce : Nat.clog 2 (2 * S) ≤ e := by
      have := Nat.clog_mono_right 2 h2S
      rwa [Nat.clog_pow 2 e one_lt_two] at this
    exact Nat.pow_le_pow_right (by norm_num) hce

/-! Definitional unfolding lemmas for literal shape tuples. -/

lemma numel_mk (b c h w : ℕ) : numel (b, c, h, w) = b * c * h * w := rfl

lemma gridSampleShape_mk (b c h w gb gh gw gc : ℕ) :
    gridSampleShape (b, c, h, w) (gb, gh, gw, gc) =
      if b = gb ∧ gc = 2 ∧ 1 ≤ h ∧ 1 ≤ w then some (b, c, gh, gw) else none := rfl

lemma radonForwardShape_mk (nA S b c h w : ℕ) :
    radonForwardShape nA S (b, c, h, w) =
      (gridSampleShape (b, c, h, w) (b, nA * S, S, 2)).bind fun g =>
        if numel g = b * 1 * nA * (h * h) then some (b, 1, h, nA) else none := rfl

lemma fbpFilterShape_mk (S b c d a : ℕ) :
    fbpFilterShape S (b, c, d, a) =
      if d + padWidth S = projectionSizePadded S ∨ d + padWidth S = 1 ∨
          projectionSizePadded S = 1 then
        some (b, c, min (max (d + padWidth S) (projectionSizePadded S)) d, a)
      else none := rfl

lemma fbpForwardShape_mk (nA S : ℕ) (filtered : Bool) (b c d a : ℕ) :
    fbpForwardShape nA S filtered (b, c, d, a) =
      (if filtered then fbpFilterShape S (b, c, d, a) else some (b, c, d, a)).bind
        fun s2 =>
          (gridSampleShape s2 (b, nA * S, S, 2)).bind fun g =>
            if numel g = b * nA * 1 * (S * S) then some (b, 1, S, S) else none := rfl

/-- C2: for every valid `H` (= construction `image_size`) and every
`n_angles ≥ 1`, the forward operator maps `batch×1×H×H` to
`batch×1×H×n_angles`, and the backward operator (filtered or not) maps
`batch×1×H×n_angles` to `batch×1×H×H`. -/
theorem shape_contract (nA S b : ℕ) (filtered : Bool) (hnA : 1 ≤ nA) (hS : 1 ≤ S) :
    radonForwardShape nA S (b, 1, S, S) = some (b, 1, S, nA) ∧
    fbpForwardShape nA S filtered (b, 1, S, nA) = some (b, 1, S, S) := by
  constructor
  · rw [radonForwardShape_mk, gridSampleShape_mk, if_pos ⟨rfl, rfl, hS, hS⟩,
      Option.some_bind, numel_mk, if_pos (by ring)]
  · have hLP : S + padWidth S = projectionSizePadded S :=
      Nat.add_sub_cancel' (le_projectionSizePadded S)
    have hfilt : fbpFilterShape S (b, 1, S, nA) = some (b, 1, S, nA) := by
      rw [fbpFilterShape_mk, if_pos (Or.inl hLP), hLP, max_self,
        min_eq_right (le_projectionSizePadded S)]
    rw [fbpForwardShape_mk]
    cases filtered
    · rw [if_neg (by simp), Option.some_bind, gridSampleShape_mk,
        if_pos ⟨rfl, rfl, hS, hnA⟩, Option.some_bind, numel_mk, if_pos (by ring)]
    · rw [if_pos rfl, hfilt, Option.some_bind, gridSampleShape_mk,
        if_pos ⟨rfl, rfl, hS, hnA⟩, Option.some_bind, numel_mk, if_pos (by ring)]

/-- C2 witness at `n_angles = 2`, `H = 3`, batch 1, both modes. -/
theorem shape_contract_witness :
    radonForwardShape 2 3 (1, 1, 3, 3) = some (1, 1, 3, 2) ∧
    fbpForwardShape 2 3 true (1, 1, 3, 2) = some (1, 1, 3, 3) ∧
    fbpForwardShape 2 3 false (1, 1, 3, 2) = some (1, 1, 3, 3) :=
  ⟨(shape_contract 2 3 1 true (by norm_num) (by norm_num)).1,
   (shape_contract 2 3 1 true (by norm_num) (by norm_num)).2,
   (shape_contract 2 3 1 false (by norm_num) (by norm_num)).2⟩

/-- C6 (corrected): the shape checks are only partial.  The forward
operator rejects a height mismatch and any channel count other than 1
(via `reshape`) but accepts any input width; the backward operator
rejects a detector-length mismatch only in filtered mode (via the filter
broadcast) and never validates the angle count: in filtered mode a
sinogram with matching detector length but arbitrary angle count is
accepted, and in unfiltered mode any detector length and any angle count
are accepted. -/
theorem shape_checks_partial (nA S b c h w d a : ℕ) (hnA : 1 ≤ nA) (hS : 1 ≤ S)
    (hb : 1 ≤ b) (hw : 1 ≤ w) (hd : 1 ≤ d) (ha : 1 ≤ a)
    (hhS : h ≠ S) (hdS : d ≠ S) (hc : c ≠ 1) :
    radonForwardShape nA S (b, 1, h, w) = none ∧
    radonForwardShape nA S (b, c, S, w) = none ∧
    radonForwardShape nA S (b, 1, S, w) = some (b, 1, S, nA) ∧
    fbpForwardShape nA S true (b, 1, d, a) = none ∧
    fbpForwardShape nA S true (b, 1, S, a) = some (b, 1, S, S) ∧
    fbpForwardShape nA S false (b, 1, d, a) = some (b, 1, S, S) := by
  refine ⟨?_, ?_, ?_, ?_, ?_, ?_⟩
  · rcases Nat.eq_zero_or_pos h with hh0 | hh1
    · subst hh0
      rw [radonForwardShape_mk, gridSampleShape_mk, if_neg (by simp),
        Option.none_bind]
    · have hne : ¬ numel (b, 1, nA * S, S) = b * 1 * nA * (h * h) := by
        rw [numel_mk]
        intro heq
        have hbnA : 0 < b * nA := Nat.mul_pos hb hnA
        have h1 : b * 1 * (nA * S) * S = b * nA * (S * S) := by ring
        have h2 : b * 1 * nA * (h * h) = b * nA * (h * h) := by ring
        rw [h1, h2] at heq
        have hsq : S * S = h * h := Nat.eq_of_mul_eq_mul_left hbnA heq
        exact hhS ((mul_self_inj (Nat.zero_le S) (Nat.zero_le h)).mp hsq).symm
      rw [radonForwardShape_mk, gridSampleShape_mk, if_pos ⟨rfl, rfl, hh1, hw⟩,
        Option.some_bind, if_neg hne]
  · have hne : ¬ numel (b, c, nA * S, S) = b * 1 * nA * (S * S) := by
      rw [numel_mk]
      intro heq
      have h1 : b * c * (nA * S) * S = c * (b * nA * (S * S)) := by ring
      have h2 : b * 1 * nA * (S * S) = 1 * (b * nA * (S * S)) := by ring
      rw [h1, h2] at heq
      have hM : 0 < b * nA * (S * S) := by positivity
      exact hc (Nat.eq_of_mul_eq_mul_right hM heq)
    rw [radonForwardShape_mk, gridSampleShape_mk, if_pos ⟨rfl, rfl, hS, hw⟩,
      Option.some_bind, if_neg hne]
  · rw [radonForwardShape_mk, gridSampleShape_mk, if_pos ⟨rfl, rfl, hS, hw⟩,
      Option.some_bind, numel_mk, if_pos (by ring)]
  · have hSP : S < projectionSizePadded S := lt_projectionSizePadded hS
    have hpw : padWidth S = projectionSizePadded S - S := rfl
    have h64 : 64 ≤ projectionSizePadded S := sixtyfour_le_projectionSizePadded S
    have hcond : ¬ (d + padWidth S = projectionSizePadded S ∨
        d + padWidth S = 1 ∨ projectionSizePadded S = 1) := by omega
    rw [fbpForwardShape_mk, if_pos rfl, fbpFilterShape_mk, if_neg hcond,
      Option.none_bind]
  · have hLP : S + padWidth S = projectionSizePadded S :=
      Nat.add_sub_cancel' (le_projectionSizePadded S)
    have hfilt : fbpFilterShape S (b, 1, S, a) = some (b, 1, S, a) := by
      rw [fbpFilterShape_mk, if_pos (Or.inl hLP), hLP, max_self,
        min_eq_right (le_projectionSizePadded S)]
    rw [fbpForwardShape_mk, if_pos rfl, hfilt, Option.some_bind,
      gridSampleShape_mk, if_pos ⟨rfl, rfl, hS, ha⟩, Option.some_bind,
      numel_mk, if_pos (by ring)]
  · rw [fbpForwardShape_mk, if_neg (by simp), Option.some_bind,
      gridSampleShape_mk, if_pos ⟨rfl, rfl, hd, ha⟩, Option.some_bind,
      numel_mk, if_pos (by ring)]

/-- C6 counterexample: against the claim, a non-square `1×1×2×3` input is
accepted by the forward operator (image size 2, 2 angles), and an
unfiltered backward operator built for image size 2 with 2 angles accepts
a `1×1×3×5` sinogram whose detector length (3) and angle count (5) both
differ from the construction values. -/
theorem shape_checks_partial_cex :
    radonForwardShape 2 2 (1, 1, 2, 3) = some (1, 1, 2, 2) ∧
    fbpForwardShape 2 2 false (1, 1, 3, 5) = some (1, 1, 2, 2) := by
  exact ⟨rfl, rfl⟩

/-- C6 witness at `n_angles = 2`, image size 2, channel count 3 ≠ 1,
height 3 ≠ 2, width 4, detector length 3 ≠ 2, angle count 5 ≠ 2. -/
theorem shape_checks_partial_witness :
    radonForwardShape 2 2 (1, 1, 3, 4) = none ∧
    radonForwardShape 2 2 (1, 3, 2, 4) = none ∧
    radonForwardShape 2 2 (1, 1, 2, 4) = some (1, 1, 2, 2) ∧
    fbpForwardShape 2 2 true (1, 1, 3, 5) = none ∧
    fbpForwardShape 2 2 true (1, 1, 2, 5) = some (1, 1, 2, 2) ∧
    fbpForwardShape 2 2 false (1, 1, 3, 5) = some (1, 1, 2, 2) :=
  shape_checks_partial 2 2 1 3 3 4 3 5 (by norm_num) (by norm_num) (by norm_num)
    (by norm_num) (by norm_num) (by norm_num) (by norm_num) (by norm_num)
    (by norm_num)

/-- C10: the forward operator never validates that its input is square:
any single-channel input of height `image_size` and arbitrary width
`w ≥ 1` is accepted and mapped to `batch×1×image_size×n_angles` (the
sampling grid is in normalized coordinates, so the input is sampled over
its own width). -/
theorem forward_accepts_any_width (nA S b w : ℕ) (_hnA : 1 ≤ nA) (hS : 1 ≤ S)
    (hw : 1 ≤ w) :
    radonForwardShape nA S (b, 1, S, w) = some (b, 1, S, nA) := by
  rw [radonForwardShape_mk, gridSampleShape_mk, if_pos ⟨rfl, rfl, hS, hw⟩,
    Option.some_bind, numel_mk, if_pos (by ring)]

/-- C10 witness: a `2×1×2×7` input (width 7 ≠ image size 2) is accepted
by the forward operator with 3 angles. -/
theorem forward_accepts_any_width_witness :
    radonForwardShape 3 2 (2, 1, 2, 7) = some (2, 1, 2, 3) :=
  forward_accepts_any_width 3 2 2 7 (by norm_num) (by norm_num) (by norm_num)

/-! ## Angles and sampling grids (data level)

`torch.linspace(a, b, n)[k] = a + k*(b-a)/(n-1)` for `n ≥ 2`, and `[a]`
for `n = 1`. -/

noncomputable def linspace (a b : ℝ) (n k : ℕ) : ℝ :=
  if n ≤ 1 then a else a + k * ((b - a) / ((n : ℝ) - 1))

/-- The projection angles of both operators (radon.py lines 37 and 84):
`torch.linspace(0, π - π/n_angles, n_angles)`. -/
noncomputable def thetas (nA k : ℕ) : ℝ := linspace 0 (π - π / nA) nA k

/-- C3: the `n_angles` projection angles are `angle[k] = k·π/n_angles`,
uniformly spaced over `[0, π)`; every angle is strictly below `π`. -/
theorem thetas_uniform (nA k : ℕ) (hnA : 1 ≤ nA) (hk : k < nA) :
    thetas nA k = k * π / nA ∧ thetas nA k < π := by
  have hπ : (0 : ℝ) < π := Real.pi_pos
  rcases eq_or_lt_of_le hnA with h1 | h2
  · have hk0 : k = 0 := by omega
    subst hk0
    rw [← h1]
    constructor
    · simp [thetas, linspace]
    · simpa [thetas, linspace] using hπ
  · have hn2 : 2 ≤ nA := h2
    have hn0 : (nA : ℝ) ≠ 0 := Nat.cast_ne_zero.mpr (by omega)
    have hn1 : (nA : ℝ) - 1 ≠ 0 := by
      have : (2 : ℝ) ≤ (nA : ℝ) := by exact_mod_cast hn2
      intro h
      nlinarith
    have hstep : (π - π / nA - 0) / ((nA : ℝ) - 1) = π / nA := by
      field_simp
      ring
    have hval : thetas nA k = k * π / nA := by
      rw [thetas, linspace, if_neg (by omega), hstep]
      ring
    refine ⟨hval, ?_⟩
    rw [hval]
    have hkn : (k : ℝ) < (nA : ℝ) := by exact_mod_cast hk
    rw [div_lt_iff₀ (by positivity)]
    nlinarith

/-- C3 witness: with 4 angles, `angle[1] = π/4 < π`. -/
theorem thetas_uniform_witness :
    thetas 4 1 = 1 * π / 4 ∧ thetas 4 1 < π := by
  have h := thetas_uniform 4 1 (by norm_num) (by norm_num)
  exact_mod_cast h

/-! ## Backward sampling grid (`fbp.__init__`, radon.py lines 84-91)

`grid_y[i,j] = linspace(-1,1,image_size)[i]`,
`grid_x[i,j] = linspace(-1,1,image_size)[j]` (meshgrid, `ij` indexing);
`tgrid[k,i,j] = grid_x·cosθ_k - grid_y·sinθ_k`;
channel 0 of the grid is the normalized angle index
`linspace(-1,1,n_angles)[k]`, channel 1 is `tgrid`; the result is
flattened by `view(n_angles*image_size, image_size, 2)`, so flat row
`r = k*image_size + i`. -/

noncomputable def gridX (S : ℕ) (_i j : ℕ) : ℝ := linspace (-1) 1 S j

noncomputable def gridY (S : ℕ) (i _j : ℕ) : ℝ := linspace (-1) 1 S i

noncomputable def tgrid (nA S k i j : ℕ) : ℝ :=
  gridX S i j * Real.cos (thetas nA k) - gridY S i j * Real.sin (thetas nA k)

/-- The flattened backward grid: row `r`, column `j` holds the coordinate
pair (channel 0 = angle coordinate, channel 1 = detector coordinate). -/
noncomputable def bpGrid (nA S r j : ℕ) : ℝ × ℝ :=
  (linspace (-1) 1 nA (r / S), tgrid nA S (r / S) (r % S) j)

/-- C9: the backward grid, built at construction from `(n_angles,
image_size)` only, maps pixel `(i,j)` (normalized coordinates
`y = linspace(-1,1,S)[i]`, `x = linspace(-1,1,S)[j]`) and angle `θ_k` to
the sinogram coordinate pairing detector position
`t = x·cosθ_k - y·sinθ_k` with normalized angle index
`linspace(-1,1,n_angles)[k]`. -/
theorem bpGrid_formula (nA S k i j : ℕ) (_hk : k < nA) (hi : i < S) (_hj : j < S) :
    bpGrid nA S (k * S + i) j =
      (linspace (-1) 1 nA k,
       linspace (-1) 1 S j * Real.cos (thetas nA k)
         - linspace (-1) 1 S i * Real.sin (thetas nA k)) := by
  have hS : 0 < S := Nat.pos_of_ne_zero (by omega)
  have hdiv : (k * S + i) / S = k := by
    rw [mul_comm, Nat.mul_add_div hS, Nat.div_eq_of_lt hi, Nat.add_zero]
  have hmod : (k * S + i) % S = i := by
    rw [mul_comm, Nat.mul_add_mod]
    exact Nat.mod_eq_of_lt hi
  unfold bpGrid tgrid gridX gridY
  rw [hdiv, hmod]

/-- C9 witness: at `n_angles = 2`, `image_size = 2`, pixel `(1,0)`,
angle index 1 (flat row `1*2+1 = 3`). -/
theorem bpGrid_formula_witness :
    bpGrid 2 2 (1 * 2 + 1) 0 =
      (linspace (-1) 1 2 1,
       linspace (-1) 1 2 0 * Real.cos (thetas 2 1)
         - linspace (-1) 1 2 1 * Real.sin (thetas 2 1)) :=
  bpGrid_formula 2 2 1 1 0 (by norm_num) (by norm_num) (by norm_num)

/-! ## Data-level model of `fbp.forward` (radon.py lines 93-122)

A single batch item with a single channel is modelled as a function
`ℕ → ℕ → ℝ` from (detector index, angle index) to value.  The stages are:
optional ramp filtering in the frequency domain (pad, `fft` along the
detector axis, multiply by the filter, `ifft`, real part, truncate),
bilinear `grid_sample` of the (filtered) sinogram at the precomputed
backward grid (align_corners=True, zeros padding), summation over angles,
division by `step_size`, circle masking, and scaling by `π/(2·n_angles)`. -/

/-- Bilinear `grid_sample` of a single-channel `H×W` image at normalized
coordinates `(gx, gy) ∈ [-1,1]²` with `align_corners=True` and
`padding_mode='zeros'`: unnormalize to pixel coordinates, then blend the
four surrounding pixels, taking 0 outside the image. -/
noncomputable def gridSample (H W : ℕ) (f : ℕ → ℕ → ℝ) (gx gy : ℝ) : ℝ :=
  let ix := (gx + 1) / 2 * ((W : ℝ) - 1)
  let iy := (gy + 1) / 2 * ((H : ℝ) - 1)
  let x0 : ℤ := ⌊ix⌋
  let y0 : ℤ := ⌊iy⌋
  let v : ℤ → ℤ → ℝ := fun yy xx =>
    if 0 ≤ xx ∧ xx < (W : ℤ) ∧ 0 ≤ yy ∧ yy < (H : ℤ) then f yy.toNat xx.toNat
    else 0
  ((x0 : ℝ) + 1 - ix) * ((y0 : ℝ) + 1 - iy) * v y0 x0
    + (ix - (x0 : ℝ)) * ((y0 : ℝ) + 1 - iy) * v y0 (x0 + 1)
    + ((x0 : ℝ) + 1 - ix) * (iy - (y0 : ℝ)) * v (y0 + 1) x0
    + (ix - (x0 : ℝ)) * (iy - (y0 : ℝ)) * v (y0 + 1) (x0 + 1)

/-- Discrete Fourier transform of length `N` (`torch.fft.fft`). -/
noncomputable def dftC (N : ℕ) (g : ℕ → ℂ) (u : ℕ) : ℂ :=
  ∑ j ∈ Finset.range N,
    g j * Complex.exp (-(2 * (π : ℂ) * Complex.I * j * u) / N)

/-- Inverse discrete Fourier transform of length `N` (`torch.fft.ifft`,
with the `1/N` normalization). -/
noncomputable def idftC (N : ℕ) (g : ℕ → ℂ) (j : ℕ) : ℂ :=
  (∑ u ∈ Finset.range N,
    g u * Complex.exp ((2 * (π : ℂ) * Complex.I * u * j) / N)) / N

/-- `step_size = image_size / det_count` with `det_count = image_size`
(radon.py lines 73-74). -/
noncomputable def stepSize (S : ℕ) : ℝ := (S : ℝ) / (S : ℝ)

/-! ## Ramp filter (`rampfilter`, radon.py lines 12-18) -/

/-- Ascending arm `np.arange(1, size/2 + 1, 2)`: the odd integers `≤ m`
where `m = size/2`. -/
def oddAsc (m : ℕ) : List ℕ := (List.range ((m + 1) / 2)).map fun t => 2 * t + 1

/-- Descending arm `np.arange(size/2 - 1, 0, -2)`: `m-1, m-3, …` down to
the first value `≥ 1`, where `m = size/2`. -/
def descStep2 (m : ℕ) : List ℕ := (List.range (m / 2)).map fun t => m - 1 - 2 * t

/-- The index array `n` of `rampfilter` (radon.py lines 13-14). -/
def rampN (size : ℕ) : List ℕ := oddAsc (size / 2) ++ descStep2 (size / 2)

/-- The real-space response `f`: `f[0] = 0.25`, `f[1::2] = -1/(π·n)²`,
even nonzero indices 0 (radon.py lines 15-17). -/
noncomputable def framp (n : List ℕ) (i : ℕ) : ℝ :=
  if i = 0 then 1 / 4
  else if i % 2 = 1 then -(1 / (π * (n.getD ((i - 1) / 2) 0)) ^ 2)
  else 0

/-- `rampfilter(size) = 2 * Re(fft(f))` (radon.py line 18), entry `k`. -/
noncomputable def rampfilter (size k : ℕ) : ℝ :=
  2 * (dftC size (fun j => (framp (rampN size) j : ℂ)) k).re

/-- Modelled from the claim's words for comparison: the descending arm as
*odd* integers, i.e. the odd integers `≤ m - 1` in descending order. -/
def oddDesc (m : ℕ) : List ℕ :=
  (List.range (m / 2)).map fun t => 2 * (m / 2) - 1 - 2 * t

/-- The index array as described by the spec: ascending odd integers up to
`size/2`, then descending odd integers from `size/2 - 1` down to 1. -/
def rampNspec (size : ℕ) : List ℕ := oddAsc (size / 2) ++ oddDesc (size / 2)

/-- The ramp filter as the spec describes it. -/
noncomputable def rampfilterSpec (size k : ℕ) : ℝ :=
  2 * (dftC size (fun j => (framp (rampNspec size) j : ℂ)) k).re

/-- C4 (corrected): for `padded_size` divisible by 4 — which covers every
padded size the program produces, a power of two `≥ 64` — the descending
arm `arange(size/2 - 1, 0, -2)` does consist of the descending odd
integers `size/2 - 1, …, 1`, and `rampfilter` agrees everywhere with the
claim's description `2·Re(DFT(f))`. -/
theorem rampfilter_matches_spec (size : ℕ) (h4 : 4 ∣ size) (k : ℕ) :
    rampfilter size k = rampfilterSpec size k := by
  have hm : 2 * (size / 2 / 2) = size / 2 := by omega
  have hlist : rampN size = rampNspec size := by
    unfold rampN rampNspec descStep2 oddDesc
    have hfun : (fun t => 2 * (size / 2 / 2) - 1 - 2 * t)
        = fun t => size / 2 - 1 - 2 * t := by
      funext t
      omega
    rw [hfun]
  unfold rampfilter rampfilterSpec
  rw [hlist]

/-- C4 witness at `size = 8` (divisible by 4), frequency index 0. -/
theorem rampfilter_matches_spec_witness :
    rampfilter 8 0 = rampfilterSpec 8 0 :=
  rampfilter_matches_spec 8 ⟨2, rfl⟩ 0

lemma rampN_six : rampN 6 = [1, 3, 2] := rfl

lemma rampNspec_six : rampNspec 6 = [1, 3, 1] := rfl

/-- C4 counterexample: at the even size 6 (≡ 2 mod 4) the claim fails:
the code's descending arm `arange(2, 0, -2) = [2]` contains an even
integer, while the claim's "descending odd integers `size/2 - 1, …, 1`"
is `[1]`, and the resulting kernels differ at frequency index 0. -/
theorem rampfilter_spec_cex : rampfilter 6 0 ≠ rampfilterSpec 6 0 := by
  have hπ : (0 : ℝ) < π := Real.pi_pos
  have hre : ∀ n : List ℕ, (dftC 6 (fun j => (framp n j : ℂ)) 0).re
      = ∑ j ∈ Finset.range 6, framp n j := by
    intro n
    unfold dftC
    simp
  have hcode : rampfilter 6 0
      = 2 * (1 / 4 + -(1 / (π * 1) ^ 2) + -(1 / (π * 3) ^ 2)
          + -(1 / (π * 2) ^ 2)) := by
    unfold rampfilter
    rw [hre, rampN_six]
    norm_num [Finset.sum_range_succ, framp]
  have hspec : rampfilterSpec 6 0
      = 2 * (1 / 4 + -(1 / (π * 1) ^ 2) + -(1 / (π * 3) ^ 2)
          + -(1 / (π * 1) ^ 2)) := by
    unfold rampfilterSpec
    rw [hre, rampNspec_six]
    norm_num [Finset.sum_range_succ, framp]
  rw [hcode, hspec]
  intro h
  have h2 : (1 : ℝ) / (π * 2) ^ 2 = 1 / (π * 1) ^ 2 := by linarith
  have hne2 : ((π : ℝ) * 2) ^ 2 ≠ 0 := by positivity
  have hne1 : ((π : ℝ) * 1) ^ 2 ≠ 0 := by positivity
  rw [div_eq_div_iff hne2 hne1] at h2
  nlinarith

/-! ## The full backward pass, data level -/

/-- Zero-padding of one projection column to length `det + pad_width`
(radon.py line 107). -/
noncomputable def padProj (det : ℕ) (input : ℕ → ℕ → ℝ) (a j : ℕ) : ℝ :=
  if j < det then input j a else 0

/-- The ramp-filtered sinogram (radon.py lines 107-110): pad the detector
axis, `fft` along it, multiply by the filter (of length
`projection_size_padded`), `ifft`, real part, truncate to the first `det`
samples. -/
noncomputable def filterSino (S det : ℕ) (input : ℕ → ℕ → ℝ) (d a : ℕ) : ℝ :=
  (idftC (det + padWidth S)
    (fun u => dftC (det + padWidth S) (fun j => (padProj det input a j : ℂ)) u
      * (rampfilter (projectionSizePadded S) u : ℂ)) d).re

/-- The sinogram actually backprojected: filtered if `filtered`, the raw
input otherwise (radon.py lines 105-112). -/
noncomputable def fbpSino (S det : ℕ) (filtered : Bool) (input : ℕ → ℕ → ℝ) :
    ℕ → ℕ → ℝ :=
  if filtered then fun d a => filterSino S det input d a else input

/-- The backprojection accumulation at pixel `(i,j)` (radon.py lines
114-116): `grid_sample` the sinogram (detector axis = height `det`, angle
axis = width `aCnt`) at the backward grid rows `k*S + i`, then sum over
the `n_angles` chunks of the flattened grid. -/
noncomputable def bpAccum (nA S det aCnt : ℕ) (g : ℕ → ℕ → ℝ) (i j : ℕ) : ℝ :=
  ∑ k ∈ Finset.range nA,
    gridSample det aCnt g (bpGrid nA S (k * S + i) j).1 (bpGrid nA S (k * S + i) j).2

open Classical in
/-- Data-level model of `fbp.forward` (radon.py lines 93-122) at output
pixel `(i,j)` of one batch item: accumulate, divide by `step_size`, zero
the pixel if the circle mask is on and the pixel lies outside the unit
disk, and scale by `π/(2·n_angles)`. -/
noncomputable def fbpForward (nA S : ℕ) (circle filtered : Bool)
    (det aCnt : ℕ) (input : ℕ → ℕ → ℝ) (i j : ℕ) : ℝ :=
  (if circle = true ∧ ¬ (gridX S i j ^ 2 + gridY S i j ^ 2 ≤ 1) then 0
   else bpAccum nA S det aCnt (fbpSino S det filtered input) i j / stepSize S)
    * (π / (2 * nA))

/-- C7: with `circle = True`, every output pixel whose normalized
coordinates lie strictly outside the unit disk is exactly zero, for every
input sinogram, in both filtered and unfiltered modes. -/
theorem circle_mask_zero (nA S : ℕ) (filtered : Bool) (det aCnt : ℕ)
    (input : ℕ → ℕ → ℝ) (i j : ℕ) (hi : i < S) (hj : j < S)
    (hout : 1 < gridX S i j ^ 2 + gridY S i j ^ 2) :
    fbpForward nA S true filtered det aCnt input i j = 0 := by
  unfold fbpForward
  rw [if_pos ⟨rfl, not_le.mpr hout⟩, zero_mul]

/-- C7 witness: image size 2, pixel `(0,0)` has normalized coordinates
`(-1,-1)`, squared norm 2 > 1; the output pixel is zero. -/
theorem circle_mask_zero_witness :
    1 < gridX 2 0 0 ^ 2 + gridY 2 0 0 ^ 2 ∧
    fbpForward 3 2 true false 2 2 (fun _ _ => 1) 0 0 = 0 := by
  have hout : 1 < gridX 2 0 0 ^ 2 + gridY 2 0 0 ^ 2 := by
    norm_num [gridX, gridY, linspace]
  exact ⟨hout,
    circle_mask_zero 3 2 false 2 2 (fun _ _ => 1) 0 0 (by norm_num) (by norm_num) hout⟩

/-- C8: without the circle mask, the returned pixel value is the
angle-summed backprojection accumulation times `π/(2·n_angles·step_size)`,
where `step_size = image_size/det_count` (equal to 1 since the two
coincide). -/
theorem fbp_normalization (nA S : ℕ) (filtered : Bool) (det aCnt : ℕ)
    (input : ℕ → ℕ → ℝ) (i j : ℕ) :
    fbpForward nA S false filtered det aCnt input i j =
      bpAccum nA S det aCnt (fbpSino S det filtered input) i j
        * (π / (2 * nA * stepSize S)) ∧
    stepSize S = (S : ℝ) / (S : ℝ) := by
  refine ⟨?_, rfl⟩
  unfold fbpForward
  rw [if_neg (by simp)]
  rw [div_eq_mul_inv, div_eq_mul_inv, div_eq_mul_inv, mul_inv]
  ring

end RadonRepo
